import Mathlib

/-!
Verification of the `vptr` crate: thin (one-word) references to trait objects,
obtained by embedding a pointer to per-(type, trait) dispatch metadata
(`VTableData`) inside the object at a statically known byte offset.

The development shallowly embeds:
* the runtime side (`src/src/lib.rs`): `VTableData`, `ThinRef`/`ThinRefMut`
  dereferencing, `ThinBox` ownership transfer and drop, over an explicit
  memory model with integer addresses;
* the generator side (`src/macros/macros.rs`): `vptr_impl`, which validates
  the attribute arguments and the struct generics and appends one `VPtr`
  slot field plus one `HasVPtr` impl per requested trait.

Machine addresses are `Int` (Rust's field offsets are `isize`); vtable
pointers are opaque and modelled by their numeric identity (`Nat`).
-/

namespace Vptr

/-- `VTableData` (lib.rs 513-521): the record stored in a per-(type, trait)
static. `offset` is the byte offset of the `VPtr` field within the struct
(`isize`, here `Int`); `vtable` is the pointer to the rustc-generated vtable,
modelled by its numeric identity. -/
structure VTableData where
  offset : Int
  vtable : Nat
deriving DecidableEq, Repr

/-- Static layout facts the host compiler fixes for one (concrete type `T`,
trait `Trait`) pair: the byte offset of the generated `vptr_…` slot field
inside `T`, the identity of the vtable rustc synthesizes for `T : Trait`,
and the link-time address of the generated `static VTABLE : VTableData`.
These are the external collaborator capabilities the spec's section 6
requires of the host environment. -/
structure TypeCapLayout where
  fieldOffset : Int
  vtablePtr : Nat
  staticAddr : Int
deriving DecidableEq, Repr

/-- Host field-layout rule: the address of the slot field of an instance
based at `base` is `base + fieldOffset`, the same constant offset for every
instance of the type. -/
def slotAddr (L : TypeCapLayout) (base : Int) : Int :=
  base + L.fieldOffset

/-- Coercion of a reference to `T` (based at `base`) to the two-word trait
object `&dyn Trait`, i.e. `internal::TraitObject { data, vtable }`
(lib.rs 540-543): the data word is the base address, the vtable word depends
only on the static pair (T, Trait), never on the address. -/
structure FatRef where
  data : Int
  vtable : Nat
deriving DecidableEq, Repr

/-- The coercion `&T -> &dyn Trait` for an instance based at `base`. -/
def fatRefCoerce (L : TypeCapLayout) (base : Int) : FatRef :=
  { data := base, vtable := L.vtablePtr }

/-- The generated `HasVPtr::init` static initializer (macros.rs 121-134):
`offset` reinterprets the address of the slot field of a symbolic instance
placed at address zero (`TransmuterPtr { int: 0 }.ptr` then
`TransmuterPtr { ptr: &x.field }.int`); `vtable` coerces that zero-based
reference to a trait object and keeps only the vtable word
(`TransmuterTO { ptr: x }.to.vtable`). -/
def hasVPtrInit (L : TypeCapLayout) : VTableData :=
  { offset := slotAddr L 0
    vtable := (fatRefCoerce L 0).vtable }

/-- Memory, split by what the runtime code reads and writes:
`slotRef a` is the `&'static VTableData` stored in the slot field at address
`a`; `statics a` is the `VTableData` stored in the immutable static region
at address `a`; `data a` is ordinary mutable payload. -/
structure Mem where
  slotRef : Int → Int
  statics : Int → VTableData
  data : Int → Nat

/-- Reading `**self.ptr` (lib.rs 319): the slot at `a` holds a reference to
a static `VTableData`; follow it and read the record. -/
def readSlotVT (m : Mem) (a : Int) : VTableData :=
  m.statics (m.slotRef a)

/-- A write to ordinary payload memory; statics and slots are untouched
(the public API never writes them after construction). -/
def writeData (m : Mem) (a : Int) (v : Nat) : Mem :=
  { m with data := fun x => if x = a then v else m.data x }

/-- The slot of the instance based at `base` is correctly initialized
(`VPtr::new()` was stored there): it points to the generated static, and
that static holds the value computed by `HasVPtr::init`. -/
def slotInitialized (L : TypeCapLayout) (m : Mem) (base : Int) : Prop :=
  m.slotRef (slotAddr L base) = L.staticAddr ∧
  m.statics L.staticAddr = hasVPtrInit L

/-- `ThinRef` (lib.rs 297-300): one word, the address of the slot field
(`ptr: &'a &'static VTableData`). -/
structure ThinRefM where
  ptr : Int
deriving DecidableEq, Repr

/-- `ThinRefMut` (lib.rs 352-355): one word, the address of the slot field
(`ptr: &'a mut &'static VTableData`). -/
structure ThinRefMutM where
  ptr : Int
deriving DecidableEq, Repr

/-- `impl From<&'a T> for ThinRef` (lib.rs 335-339): `ThinRef::new(f.get_vptr())`
stores the address of the slot field of `f`. -/
def thinRefFrom (L : TypeCapLayout) (base : Int) : ThinRefM :=
  { ptr := slotAddr L base }

/-- `impl From<&'a mut T> for ThinRefMut` (lib.rs 414-418). -/
def thinRefMutFrom (L : TypeCapLayout) (base : Int) : ThinRefMutM :=
  { ptr := slotAddr L base }

/-- `impl Deref for ThinRef` (lib.rs 314-327): read `{offset, vtable}`
through the slot, compute `p = slot_address - offset`, and assemble the
trait object `{ data: p, vtable }`. -/
def thinRefDeref (m : Mem) (r : ThinRefM) : FatRef :=
  let vd := readSlotVT m r.ptr
  { data := r.ptr - vd.offset, vtable := vd.vtable }

/-- `impl DerefMut for ThinRefMut` (lib.rs 384-400): same computation as
`Deref`, yielding a `*mut Trait` trait object. -/
def thinRefMutDeref (m : Mem) (r : ThinRefMutM) : FatRef :=
  let vd := readSlotVT m r.ptr
  { data := r.ptr - vd.offset, vtable := vd.vtable }

end Vptr

namespace Vptr

/-- `ThinBox` (lib.rs 446-448): `repr(transparent)` around
`NonNull<&'static VTableData>`, i.e. one word holding the slot's address. -/
structure ThinBoxT where
  ptr : Int
deriving DecidableEq, Repr

/-- `Box<T>`: an owned heap allocation, identified by the base address of
the object it owns. -/
structure BoxT where
  addr : Int
deriving DecidableEq, Repr

/-- `ThinBox::from_box` (lib.rs 454-459): `Box::leak(f)` releases the box's
ownership bookkeeping without touching the object, `get_vptr_mut()` takes
the slot field's address, and only that address is retained. Memory is
returned unchanged: nothing is read or written. -/
def thinBoxFromBox (L : TypeCapLayout) (b : BoxT) (m : Mem) :
    ThinBoxT × Mem :=
  ({ ptr := slotAddr L b.addr }, m)

/-- `ThinBox::as_thin_ref_mut` (lib.rs 476-481): rebuild a `ThinRefMut`
from the stored slot address. -/
def thinBoxAsThinRefMut (tb : ThinBoxT) : ThinRefMutM :=
  { ptr := tb.ptr }

/-- `ThinBox::into_box` (lib.rs 461-465): dereference the rebuilt
`ThinRefMut` to a trait object, `mem::forget` the `ThinBox` (suppressing
its destructor), and `Box::from_raw` the data pointer. Memory is returned
unchanged. -/
def thinBoxIntoBox (tb : ThinBoxT) (m : Mem) : BoxT × Mem :=
  ({ addr := (thinRefMutDeref m (thinBoxAsThinRefMut tb)).data }, m)

/-- `impl Drop for ThinBox` (lib.rs 484-490): dereference the rebuilt
`ThinRefMut` to a trait object and `Box::from_raw` it, letting the box drop
run the object's destructor and deallocate, once. `log` records the base
addresses on which a destructor has run. -/
def thinBoxDropRun (m : Mem) (tb : ThinBoxT) (log : List Int) : List Int :=
  log ++ [(thinRefMutDeref m (thinBoxAsThinRefMut tb)).data]

/-- The generated `HasVPtr::init` call (macros.rs 121-134): the body is
`static VTABLE : VTableData = …; &VTABLE`, so each call returns the address
of the same per-(type, trait) static and performs no write at all. -/
def initCall (L : TypeCapLayout) (m : Mem) : Int × Mem :=
  (L.staticAddr, m)

/-- `VPtr::new` (lib.rs 199-204): stores `T::init()` in the slot value. -/
def vptrNewCall (L : TypeCapLayout) (m : Mem) : Int × Mem :=
  initCall L m

/-- `impl Default for VPtr` (lib.rs 207-216): `VPtr::new()`. -/
def vptrDefaultCall (L : TypeCapLayout) (m : Mem) : Int × Mem :=
  vptrNewCall L m

/-- Rust type shapes relevant to the size claims, with the host compiler's
documented layout rules (the spec's section 6 external collaborator):
references and `NonNull` are one pointer wide and never null, `PhantomData`
is zero-sized, a struct of such fields needs no padding, and `Option` of a
type containing a non-null pointer reuses the null value for `None`. -/
inductive RTy where
  | nonNullPtr : RTy
  | phantom : RTy
  | pair : RTy → RTy → RTy
  | opt : RTy → RTy
deriving DecidableEq, Repr

/-- Whether the type contains a niche (an impossible bit pattern, here a
non-null pointer) that `Option` can reuse for its `None` case. -/
def rtyHasNiche : RTy → Bool
  | .nonNullPtr => true
  | .phantom => false
  | .pair a b => rtyHasNiche a || rtyHasNiche b
  | .opt _ => false

/-- Size in bytes, given pointer width `w`: without a niche, `Option` must
add space for its discriminant. -/
def rtySize (w : Nat) : RTy → Nat
  | .nonNullPtr => w
  | .phantom => 0
  | .pair a b => rtySize w a + rtySize w b
  | .opt t => if rtyHasNiche t then rtySize w t else rtySize w t + w

/-- The shape of `ThinRef` (lib.rs 297-300): a reference field plus a
`PhantomData` field. -/
def thinRefTy : RTy := RTy.pair RTy.nonNullPtr RTy.phantom

/-- The shape of `ThinBox` (lib.rs 446-448): a `NonNull` field plus a
`PhantomData` field. -/
def thinBoxTy : RTy := RTy.pair RTy.nonNullPtr RTy.phantom

/-- A `syn::Path`: the non-empty segment list of a Rust path such as
`std::fmt::Display` (the generator only ever uses its segments). -/
abbrev RPath : Type := List String

/-- One element of the `#[vptr(…)]` attribute argument list
(`syn::NestedMeta`): a path meta item, a string literal together with what
`syn`'s path parser returns on it (`none` when it does not parse as a
path), or any other form of argument. -/
inductive NestedMeta where
  | metaPath : RPath → NestedMeta
  | litStr : String → Option RPath → NestedMeta
  | other : NestedMeta
deriving DecidableEq, Repr

/-- Generics of the input struct: the generator only ever counts type
parameters (`generics.type_params()`); lifetimes are listed separately. -/
structure GenericsM where
  lifetimes : Nat
  typeParams : Nat
deriving DecidableEq, Repr

/-- The fields of the input struct (`syn::Fields`): named, unnamed
(tuple-like, with a field count), or a unit struct. -/
inductive FieldsM where
  | named : List String → FieldsM
  | unnamed : Nat → FieldsM
  | unit : FieldsM
deriving DecidableEq, Repr

/-- The input `syn::ItemStruct`, restricted to what `vptr_impl` inspects. -/
structure ItemStructM where
  ident : String
  generics : GenericsM
  fields : FieldsM
deriving DecidableEq, Repr

/-- Validation of one attribute argument (macros.rs 50-64): a path meta
item is accepted as is; a string literal is handed to `syn`'s path parser
and its error propagated; anything else is "attribute of vptr must be a
trait". -/
def parseVptrAttr : NestedMeta → Except String RPath
  | NestedMeta.metaPath p => Except.ok p
  | NestedMeta.litStr _ (some p) => Except.ok p
  | NestedMeta.litStr _ none => Except.error "expected identifier"
  | NestedMeta.other => Except.error "attribute of vptr must be a trait"

/-- The `collect::<Result<Vec<_>, _>>()` over the argument list
(macros.rs 50-64): sequential, first error wins. -/
def collectAttrs : List NestedMeta → Except String (List RPath)
  | [] => Except.ok []
  | a :: rest =>
    match parseVptrAttr a with
    | Except.error e => Except.error e
    | Except.ok p =>
      match collectAttrs rest with
      | Except.error e => Except.error e
      | Except.ok ps => Except.ok (p :: ps)

/-- The generated slot field name for a named-field struct
(macros.rs 76): `format_ident!("vptr_{}", t.segments.last().unwrap().ident)`,
i.e. "vptr_" followed by only the last path segment. -/
def slotFieldName (p : RPath) : String :=
  "vptr_" ++ List.getLastD p ""

/-- The fields of the struct emitted by the generator. -/
inductive OutFieldsM where
  | named : List String → OutFieldsM
  | unnamed : Nat → OutFieldsM
deriving DecidableEq, Repr

/-- The output of the generator, restricted to what the claims inspect:
the emitted struct's fields and the list of traits for which a `HasVPtr`
impl block is emitted, in order. -/
structure GenOut where
  ident : String
  fields : OutFieldsM
  impls : List RPath
deriving DecidableEq, Repr

/-- `vptr_impl` (macros.rs 39-143): validate each attribute argument
(first error wins), reject when `generics.type_params()` is non-empty,
then append one slot field per trait — named `vptr_{last segment}` for
named-field structs, positional at indices `count + i` for tuple-like and
unit structs — and emit one `HasVPtr` impl per trait. -/
def vptr_impl (attr : List NestedMeta) (item : ItemStructM) :
    Except String GenOut :=
  match collectAttrs attr with
  | Except.error e => Except.error e
  | Except.ok traits =>
    if 0 < item.generics.typeParams then
      Except.error "vptr does not support generics"
    else
      match item.fields with
      | FieldsM.named ns =>
        Except.ok
          { ident := item.ident
            fields := OutFieldsM.named (ns ++ traits.map slotFieldName)
            impls := traits }
      | FieldsM.unnamed k =>
        Except.ok
          { ident := item.ident
            fields := OutFieldsM.unnamed (k + traits.length)
            impls := traits }
      | FieldsM.unit =>
        Except.ok
          { ident := item.ident
            fields := OutFieldsM.unnamed traits.length
            impls := traits }

/-- Whether a generator result is generated code (`Ok`) rather than an
error turned into `compile_error!` (macros.rs 33-36). -/
def isOkE {ε α : Type} : Except ε α → Bool
  | Except.ok _ => true
  | Except.error _ => false

/-- Claim C2: the offset stored by the generated static initializer
(`HasVPtr::init`, probing a symbolic instance at address zero) equals, for
every instance base address `b`, the byte distance from that instance's
slot address to its base. -/
theorem vtable_offset_probe_correct (L : TypeCapLayout) (b : Int) :
    (hasVPtrInit L).offset = slotAddr L b - b := by
  simp [hasVPtrInit, slotAddr]

/-- Claim C1: for a live instance based at `b` whose slot is correctly
initialized, any operation dispatched through the fat reference rebuilt by
`ThinRef::deref` on `ThinRef::from(&o)` returns the same result as the same
operation dispatched through the direct coercion `&o as &dyn Trait`. -/
theorem thinref_op_agrees_with_fat_ref {α : Type} (L : TypeCapLayout)
    (m : Mem) (b : Int) (op : FatRef → α)
    (h : slotInitialized L m b) :
    op (thinRefDeref m (thinRefFrom L b)) = op (fatRefCoerce L b) := by
  obtain ⟨h1, h2⟩ := h
  simp only [slotAddr] at h1
  have key : thinRefDeref m (thinRefFrom L b) = fatRefCoerce L b := by
    simp only [thinRefDeref, thinRefFrom, readSlotVT, slotAddr, h1, h2,
      hasVPtrInit, fatRefCoerce, FatRef.mk.injEq, and_true]
    omega
  rw [key]

/-- Witness for C1 at a concrete layout, memory and operation. -/
theorem thinref_op_agrees_with_fat_ref_w :
    slotInitialized ⟨8, 3, 40⟩
      ⟨fun _ => 40, fun _ => hasVPtrInit ⟨8, 3, 40⟩, fun _ => 0⟩ 100 ∧
    FatRef.data (thinRefDeref
        ⟨fun _ => 40, fun _ => hasVPtrInit ⟨8, 3, 40⟩, fun _ => 0⟩
        (thinRefFrom ⟨8, 3, 40⟩ 100)) =
      FatRef.data (fatRefCoerce ⟨8, 3, 40⟩ 100) := by
  refine ⟨⟨rfl, rfl⟩, ?_⟩
  exact thinref_op_agrees_with_fat_ref ⟨8, 3, 40⟩
    ⟨fun _ => 40, fun _ => hasVPtrInit ⟨8, 3, 40⟩, fun _ => 0⟩ 100
    FatRef.data ⟨rfl, rfl⟩

/-- Claim C8: a write performed through the trait object returned by
`ThinRefMut::deref_mut` (at any byte offset `k` from its data word) lands in
the original object's own memory: a plain read at `b + k` afterwards sees
the written value — there is no hidden copy. -/
theorem thinrefmut_writes_through (L : TypeCapLayout) (m : Mem)
    (b k : Int) (v : Nat) (h : slotInitialized L m b) :
    (writeData m ((thinRefMutDeref m (thinRefMutFrom L b)).data + k) v).data
      (b + k) = v := by
  obtain ⟨h1, h2⟩ := h
  simp only [slotAddr] at h1
  have hb : (thinRefMutDeref m (thinRefMutFrom L b)).data = b := by
    simp only [thinRefMutDeref, thinRefMutFrom, readSlotVT, slotAddr, h1, h2,
      hasVPtrInit]
    omega
  rw [hb]
  simp [writeData]

/-- Witness for C8 at a concrete layout, memory and write. -/
theorem thinrefmut_writes_through_w :
    slotInitialized ⟨8, 3, 40⟩
      ⟨fun _ => 40, fun _ => hasVPtrInit ⟨8, 3, 40⟩, fun _ => 0⟩ 100 ∧
    (writeData ⟨fun _ => 40, fun _ => hasVPtrInit ⟨8, 3, 40⟩, fun _ => 0⟩
        ((thinRefMutDeref
            ⟨fun _ => 40, fun _ => hasVPtrInit ⟨8, 3, 40⟩, fun _ => 0⟩
            (thinRefMutFrom ⟨8, 3, 40⟩ 100)).data + 4) 7).data
      (100 + 4) = 7 := by
  refine ⟨⟨rfl, rfl⟩, ?_⟩
  exact thinrefmut_writes_through ⟨8, 3, 40⟩
    ⟨fun _ => 40, fun _ => hasVPtrInit ⟨8, 3, 40⟩, fun _ => 0⟩ 100 4 7
    ⟨rfl, rfl⟩

/-- Claim C3: for an owned object whose slot is initialized,
`ThinBox::from_box` followed by `ThinBox::into_box` returns a box with the
original address (identity, hence value: memory is untouched throughout);
and dropping the `ThinBox` instead runs the object's destructor exactly
once, on the original object. -/
theorem thinbox_roundtrip_and_single_drop (L : TypeCapLayout) (m : Mem)
    (b : BoxT) (h : slotInitialized L m b.addr) :
    thinBoxIntoBox (thinBoxFromBox L b m).1 (thinBoxFromBox L b m).2 =
      (b, m) ∧
    ∀ log : List Int,
      thinBoxDropRun m (thinBoxFromBox L b m).1 log = log ++ [b.addr] := by
  obtain ⟨h1, h2⟩ := h
  simp only [slotAddr] at h1
  have hb : (thinRefMutDeref m
      ({ ptr := slotAddr L b.addr } : ThinRefMutM)).data = b.addr := by
    simp only [thinRefMutDeref, readSlotVT, slotAddr, h1, h2, hasVPtrInit]
    omega
  constructor
  · have he : thinBoxIntoBox (thinBoxFromBox L b m).1 (thinBoxFromBox L b m).2 =
        ({ addr := (thinRefMutDeref m
            ({ ptr := slotAddr L b.addr } : ThinRefMutM)).data }, m) := rfl
    rw [he, hb]
  · intro log
    have he : thinBoxDropRun m (thinBoxFromBox L b m).1 log =
        log ++ [(thinRefMutDeref m
          ({ ptr := slotAddr L b.addr } : ThinRefMutM)).data] := rfl
    rw [he, hb]

/-- Witness for C3 at a concrete layout, memory and box. -/
theorem thinbox_roundtrip_and_single_drop_w :
    slotInitialized ⟨8, 3, 40⟩
      ⟨fun _ => 40, fun _ => hasVPtrInit ⟨8, 3, 40⟩, fun _ => 0⟩ 100 ∧
    thinBoxIntoBox
        (thinBoxFromBox ⟨8, 3, 40⟩ ⟨100⟩
          ⟨fun _ => 40, fun _ => hasVPtrInit ⟨8, 3, 40⟩, fun _ => 0⟩).1
        (thinBoxFromBox ⟨8, 3, 40⟩ ⟨100⟩
          ⟨fun _ => 40, fun _ => hasVPtrInit ⟨8, 3, 40⟩, fun _ => 0⟩).2 =
      (⟨100⟩, ⟨fun _ => 40, fun _ => hasVPtrInit ⟨8, 3, 40⟩, fun _ => 0⟩) := by
  refine ⟨⟨rfl, rfl⟩, ?_⟩
  exact (thinbox_roundtrip_and_single_drop ⟨8, 3, 40⟩
    ⟨fun _ => 40, fun _ => hasVPtrInit ⟨8, 3, 40⟩, fun _ => 0⟩ ⟨100⟩
    ⟨rfl, rfl⟩).1

/-- Claim C5: the generated `HasVPtr::init` (reached through `VPtr::new`
and `Default for VPtr`) is idempotent and side-effect-free: every call
returns the address of the same per-(type, trait) static, leaves memory
unchanged, and the static's contents — set at load time to the probe's
value — survive any payload write unchanged. -/
theorem init_idempotent_pure_singleton (L : TypeCapLayout) (m m₂ : Mem)
    (a : Int) (v : Nat) (h : m.statics L.staticAddr = hasVPtrInit L) :
    (initCall L m).1 = (initCall L m₂).1 ∧
    (initCall L m).2 = m ∧
    vptrNewCall L m = initCall L m ∧
    vptrDefaultCall L m = vptrNewCall L m ∧
    (writeData m a v).statics (initCall L m).1 = hasVPtrInit L := by
  exact ⟨rfl, rfl, rfl, rfl, h⟩

/-- Witness for C5 at a concrete layout and memory. -/
theorem init_idempotent_pure_singleton_w :
    (⟨fun _ => 40, fun _ => hasVPtrInit ⟨8, 3, 40⟩, fun _ => 0⟩ :
        Mem).statics 40 = hasVPtrInit ⟨8, 3, 40⟩ ∧
    (initCall ⟨8, 3, 40⟩
        ⟨fun _ => 40, fun _ => hasVPtrInit ⟨8, 3, 40⟩, fun _ => 0⟩).1 =
      (initCall ⟨8, 3, 40⟩
        ⟨fun _ => 41, fun _ => hasVPtrInit ⟨8, 3, 40⟩, fun _ => 1⟩).1 := by
  refine ⟨rfl, ?_⟩
  exact (init_idempotent_pure_singleton ⟨8, 3, 40⟩
    ⟨fun _ => 40, fun _ => hasVPtrInit ⟨8, 3, 40⟩, fun _ => 0⟩
    ⟨fun _ => 41, fun _ => hasVPtrInit ⟨8, 3, 40⟩, fun _ => 1⟩
    0 0 rfl).1

/-- Claim C4: for any pointer width, `ThinRef` is exactly one pointer wide,
and so is `Option<ThinRef>` thanks to the non-null niche; the same holds
for `ThinBox`. -/
theorem thin_handles_pointer_sized (w : Nat) :
    rtySize w thinRefTy = w ∧ rtySize w (RTy.opt thinRefTy) = w ∧
    rtySize w thinBoxTy = w ∧ rtySize w (RTy.opt thinBoxTy) = w := by
  simp [rtySize, rtyHasNiche, thinRefTy, thinBoxTy]

/-- Every argument of a successfully collected attribute list parsed
successfully (first error would have won). -/
theorem collectAttrs_ok_forall (l : List NestedMeta) (ps : List RPath)
    (hok : collectAttrs l = Except.ok ps) :
    ∀ a ∈ l, isOkE (parseVptrAttr a) = true := by
  induction l generalizing ps with
  | nil => intro a ha; cases ha
  | cons x xs ih =>
    intro a ha
    simp only [collectAttrs] at hok
    cases hpx : parseVptrAttr x with
    | error e => rw [hpx] at hok; cases hok
    | ok p =>
      rw [hpx] at hok
      cases hcx : collectAttrs xs with
      | error e => rw [hcx] at hok; cases hok
      | ok qs =>
        cases List.mem_cons.mp ha with
        | inl hh => subst hh; simp [isOkE, hpx]
        | inr hh => exact ih qs hcx a hh

/-- Claim C6, counterexample: on a named-field struct with the same
capability listed twice, `vptr_impl` does not reject the input — it
returns `Ok`, with two slots for the capability (two identically-named
fields) and two `HasVPtr` impls for the same trait. -/
theorem dup_capability_not_rejected_cex :
    vptr_impl
        [NestedMeta.metaPath ["MyTrait"], NestedMeta.metaPath ["MyTrait"]]
        ⟨"Foobar2", ⟨0, 0⟩, FieldsM.named ["q"]⟩ =
      Except.ok ⟨"Foobar2",
        OutFieldsM.named ["q", "vptr_MyTrait", "vptr_MyTrait"],
        [["MyTrait"], ["MyTrait"]]⟩ := by
  rfl

/-- Mapping a list can only merge occurrences: the image of an element
occurs in the image list at least as often as the element did. -/
theorem count_map_ge {α β : Type} [BEq α] [LawfulBEq α] [BEq β] [LawfulBEq β]
    (f : α → β) (l : List α) (p : α) :
    l.count p ≤ (l.map f).count (f p) := by
  induction l with
  | nil => simp
  | cons x xs ih =>
    by_cases hx : x = p
    · subst hx
      rw [List.map_cons, List.count_cons_self, List.count_cons_self]
      omega
    · by_cases hf : f x = f p
      · rw [List.map_cons, hf, List.count_cons_self,
          List.count_cons_of_ne (Ne.symm hx)]
        omega
      · rw [List.map_cons, List.count_cons_of_ne (Ne.symm hx),
          List.count_cons_of_ne (Ne.symm hf)]
        exact ih

/-- Claim C6, amended: `vptr_impl` never rejects a duplicated capability.
For every input that passes the unrelated checks (every attribute argument
parses to a trait path, no type parameters) and whose parsed capability
list contains the same path twice, it returns `Ok` and emits one slot per
occurrence: the `HasVPtr` impl list is the full parsed list and so names
that trait at least twice whatever the field kind; a named-field struct
additionally gets at least two fields with the identical generated name;
tuple-like and unit structs get one positional slot per list entry,
duplicates included. The duplicate is rejected only downstream, when the
host compiler refuses the ill-formed generated code. -/
theorem dup_capability_emits_two_slots (attr : List NestedMeta)
    (item : ItemStructM) (traits : List RPath) (p : RPath)
    (h1 : item.generics.typeParams = 0)
    (h2 : collectAttrs attr = Except.ok traits)
    (hdup : 2 ≤ traits.count p) :
    ∃ out : GenOut, vptr_impl attr item = Except.ok out ∧
      out.impls = traits ∧ 2 ≤ out.impls.count p ∧
      (∀ ns, item.fields = FieldsM.named ns →
        out.fields = OutFieldsM.named (ns ++ traits.map slotFieldName) ∧
        2 ≤ (ns ++ traits.map slotFieldName).count (slotFieldName p)) ∧
      (∀ k, item.fields = FieldsM.unnamed k →
        out.fields = OutFieldsM.unnamed (k + traits.length)) ∧
      (item.fields = FieldsM.unit →
        out.fields = OutFieldsM.unnamed traits.length) := by
  have hcnt : ∀ ns0 : List String,
      2 ≤ (ns0 ++ traits.map slotFieldName).count (slotFieldName p) := by
    intro ns0
    have hmap := count_map_ge slotFieldName traits p
    have hstep : (traits.map slotFieldName).count (slotFieldName p) ≤
        (ns0 ++ traits.map slotFieldName).count (slotFieldName p) := by
      rw [List.count_append]
      exact Nat.le_add_left _ _
    exact le_trans hdup (le_trans hmap hstep)
  cases hi : item.fields with
  | named ns =>
    refine ⟨{ ident := item.ident
              fields := OutFieldsM.named (ns ++ traits.map slotFieldName)
              impls := traits }, ?_, rfl, hdup, ?_, ?_, ?_⟩
    · simp [vptr_impl, h2, h1, hi]
    · intro ns2 hns2
      injection hns2 with hns2
      subst hns2
      exact ⟨rfl, hcnt _⟩
    · intro k hk
      cases hk
    · intro hk
      cases hk
  | unnamed k =>
    refine ⟨{ ident := item.ident
              fields := OutFieldsM.unnamed (k + traits.length)
              impls := traits }, ?_, rfl, hdup, ?_, ?_, ?_⟩
    · simp [vptr_impl, h2, h1, hi]
    · intro ns2 hns2
      cases hns2
    · intro k2 hk2
      injection hk2 with hk2
      subst hk2
      rfl
    · intro hk
      cases hk
  | unit =>
    refine ⟨{ ident := item.ident
              fields := OutFieldsM.unnamed traits.length
              impls := traits }, ?_, rfl, hdup, ?_, ?_, ?_⟩
    · simp [vptr_impl, h2, h1, hi]
    · intro ns2 hns2
      cases hns2
    · intro k2 hk2
      cases hk2
    · intro hk
      rfl

/-- Witness for the amended C6: the duplicated capability list on a
named-field struct, exercised through the theorem. -/
theorem dup_capability_emits_two_slots_w :
    (⟨"Foobar2", ⟨0, 0⟩, FieldsM.named ["q"]⟩ :
        ItemStructM).generics.typeParams = 0 ∧
    collectAttrs
        [NestedMeta.metaPath ["MyTrait"], NestedMeta.metaPath ["MyTrait"]] =
      Except.ok [["MyTrait"], ["MyTrait"]] ∧
    2 ≤ ([["MyTrait"], ["MyTrait"]] : List RPath).count ["MyTrait"] ∧
    ∃ out : GenOut,
      vptr_impl
          [NestedMeta.metaPath ["MyTrait"], NestedMeta.metaPath ["MyTrait"]]
          ⟨"Foobar2", ⟨0, 0⟩, FieldsM.named ["q"]⟩ = Except.ok out ∧
      out.impls = [["MyTrait"], ["MyTrait"]] ∧
      2 ≤ out.impls.count ["MyTrait"] := by
  refine ⟨rfl, rfl, by decide, ?_⟩
  obtain ⟨out, ha, hb, hc, -, -, -⟩ :=
    dup_capability_emits_two_slots
      [NestedMeta.metaPath ["MyTrait"], NestedMeta.metaPath ["MyTrait"]]
      ⟨"Foobar2", ⟨0, 0⟩, FieldsM.named ["q"]⟩
      [["MyTrait"], ["MyTrait"]] ["MyTrait"] rfl rfl (by decide)
  exact ⟨out, ha, hb, hc⟩

/-- Claim C7: `vptr_impl` returns an error (never generated code) whenever
the input struct has a type parameter or any capability argument fails to
parse as a trait path. -/
theorem invalid_input_rejected (attr : List NestedMeta) (item : ItemStructM)
    (h : 0 < item.generics.typeParams ∨
      ∃ a ∈ attr, isOkE (parseVptrAttr a) = false) :
    isOkE (vptr_impl attr item) = false := by
  cases hc : collectAttrs attr with
  | error e => simp [vptr_impl, hc, isOkE]
  | ok traits =>
    rcases h with ht | ⟨a, ha, hbad⟩
    · simp [vptr_impl, hc, ht, isOkE]
    · have hgood := collectAttrs_ok_forall attr traits hc a ha
      rw [hbad] at hgood
      cases hgood

/-- Witness for C7: a struct with one type parameter is rejected. -/
theorem invalid_input_rejected_w :
    (0 < (⟨"WithGenerics", ⟨0, 1⟩, FieldsM.named ["foo"]⟩ :
        ItemStructM).generics.typeParams ∨
      ∃ a ∈ ([NestedMeta.metaPath ["MyTrait"]] : List NestedMeta),
        isOkE (parseVptrAttr a) = false) ∧
    isOkE (vptr_impl [NestedMeta.metaPath ["MyTrait"]]
      ⟨"WithGenerics", ⟨0, 1⟩, FieldsM.named ["foo"]⟩) = false := by
  refine ⟨Or.inl (by decide), ?_⟩
  exact invalid_input_rejected _ _ (Or.inl (by decide))

/-- Claim C9: the genericity check looks only at type parameters: a struct
whose generics are lifetimes only (any number of them) is accepted, and
slots plus one `HasVPtr` impl per requested trait are generated. -/
theorem lifetime_only_generics_accepted (attr : List NestedMeta)
    (item : ItemStructM) (traits : List RPath)
    (h1 : item.generics.typeParams = 0)
    (h2 : collectAttrs attr = Except.ok traits) :
    ∃ out : GenOut, vptr_impl attr item = Except.ok out ∧
      out.impls = traits := by
  cases hi : item.fields with
  | named ns =>
    refine ⟨{ ident := item.ident
              fields := OutFieldsM.named (ns ++ traits.map slotFieldName)
              impls := traits }, ?_, rfl⟩
    simp [vptr_impl, h2, h1, hi]
  | unnamed k =>
    refine ⟨{ ident := item.ident
              fields := OutFieldsM.unnamed (k + traits.length)
              impls := traits }, ?_, rfl⟩
    simp [vptr_impl, h2, h1, hi]
  | unit =>
    refine ⟨{ ident := item.ident
              fields := OutFieldsM.unnamed traits.length
              impls := traits }, ?_, rfl⟩
    simp [vptr_impl, h2, h1, hi]

/-- Witness for C9: the crate's own `WithLifeTime<'a>` test struct, one
lifetime and no type parameters, is accepted. -/
theorem lifetime_only_generics_accepted_w :
    (⟨"WithLifeTime", ⟨1, 0⟩, FieldsM.named ["foo"]⟩ :
        ItemStructM).generics.typeParams = 0 ∧
    collectAttrs [NestedMeta.metaPath ["MyTrait"]] =
      Except.ok [["MyTrait"]] ∧
    ∃ out : GenOut,
      vptr_impl [NestedMeta.metaPath ["MyTrait"]]
        ⟨"WithLifeTime", ⟨1, 0⟩, FieldsM.named ["foo"]⟩ = Except.ok out ∧
      out.impls = [["MyTrait"]] := by
  refine ⟨rfl, rfl, ?_⟩
  exact lifetime_only_generics_accepted _ _ _ rfl rfl

/-- Claim C10: the generated slot field name is "vptr_" followed by only
the last segment of the capability path, so the naming is not injective:
the distinct capabilities `a::Foo` and `b::Foo` produce two fields with
the identical name `vptr_Foo`. -/
theorem slot_field_name_last_segment_collision :
    (∀ p : RPath, slotFieldName p = "vptr_" ++ List.getLastD p "") ∧
    vptr_impl
        [NestedMeta.metaPath ["a", "Foo"], NestedMeta.metaPath ["b", "Foo"]]
        ⟨"S", ⟨0, 0⟩, FieldsM.named []⟩ =
      Except.ok ⟨"S", OutFieldsM.named ["vptr_Foo", "vptr_Foo"],
        [["a", "Foo"], ["b", "Foo"]]⟩ ∧
    (["a", "Foo"] : RPath) ≠ ["b", "Foo"] := by
  refine ⟨fun p => rfl, by rfl, by decide⟩

end Vptr
